import Mathlib

/-!
Shallow embedding of the extension-reconciliation core of the `techtriage`
repository (`src/extensions/mod.rs`, `src/extensions/conflicts.rs`), together
with theorems settling the frozen claims about it.

The embedding translates the Rust source directly:
* `semver::Version` (external crate) is modelled as a numeric
  major/minor/patch triple with lexicographic strict order, which is the
  order the spec's data model describes for versions without pre-release tags.
* `InventoryExtensionMetadata` lives in `src/models/common.rs`, a file not
  present in the snapshot; it is modelled from the spec as
  {identity, display name, version}, the three fields the reconciliation code
  actually reads (`id`, `display_name`, `version`).
* Rust's `&mut Vec<Metadata>` argument of `LoadConflict::new` becomes explicit
  state passing: the function returns the updated list.
* The storage collaborator (`Database`) is modelled by two oracle functions
  for `load_extension` / `reload_extension` returning `Except`, and the
  orchestrator additionally returns the trace of storage calls it issued, so
  that effect order and fail-fast behaviour are observable.
-/

deriving instance DecidableEq for Except

namespace TechTriage

/-- Identity of an extension (`InventoryExtensionID`); an opaque comparable
name, equality is the sole basis for matching. -/
structure ExtensionID where
  name : String
deriving DecidableEq, Repr

/-- Semantic version (`semver::Version`), modelled as the numeric
major/minor/patch triple. -/
structure Version where
  major : Nat
  minor : Nat
  patch : Nat
deriving DecidableEq, Repr

/-- Strict lexicographic order on versions, matching `semver`'s order on
versions without pre-release identifiers. -/
def Version.lt (a b : Version) : Prop :=
  a.major < b.major ∨
    (a.major = b.major ∧
      (a.minor < b.minor ∨ (a.minor = b.minor ∧ a.patch < b.patch)))

instance (a b : Version) : Decidable (Version.lt a b) := by
  unfold Version.lt
  exact inferInstance

/-- Modelled from the spec: `InventoryExtensionMetadata` is defined in
`src/models/common.rs`, which is missing from the snapshot.  The spec's data
model gives Metadata = {identity, display name, version}; those are exactly
the fields the reconciliation code reads. -/
structure Metadata where
  id : ExtensionID
  display_name : String
  version : Version
deriving DecidableEq, Repr

/-- An extension of the database inventory system (`InventoryExtension`).
Its manufacturer/classification/device payload is opaque to reconciliation
(never compared), so only the metadata is carried here. -/
structure InventoryExtension where
  metadata : Metadata
deriving DecidableEq, Repr

/-- Indicator that the display name of a staged extension did not match its
loaded counterpart (`NameChange`). -/
structure NameChange where
  loaded_name : String
  staged_name : String
deriving DecidableEq, Repr

/-- Indicator that the version of a staged extension did not match its loaded
counterpart (`VersionChange`). -/
structure VersionChange where
  loaded_version : Version
  staged_version : Version
deriving DecidableEq, Repr

/-- Indicator that the manager encountered a conflict when loading an
extension (`LoadConflict`). -/
structure LoadConflict where
  id : ExtensionID
  name_change : Option NameChange
  version_change : Option VersionChange
deriving DecidableEq, Repr

/-- The difference between the metadata of two extensions
(`ExtensionDiff`). -/
structure ExtensionDiff where
  same_display_name : Bool
  higher_version : Option Bool
deriving DecidableEq, Repr

/-- `ExtensionDiff::new(extension_1, extension_2)`: returns `none` if the two
extensions do not share an ID; otherwise records whether the display names
agree and the order of the versions.  `higher_version = some true` is produced
exactly when `extension_1.version > extension_2.version` (the first argument,
the loaded metadata at the call site, has the strictly higher version);
`some false` when `extension_1.version < extension_2.version`; `none` when
they are equal. -/
def ExtensionDiff.new (extension_1 extension_2 : Metadata) : Option ExtensionDiff :=
  if extension_1.id ≠ extension_2.id then
    none
  else
    some
      { same_display_name := decide (extension_1.display_name = extension_2.display_name)
        higher_version :=
          if Version.lt extension_2.version extension_1.version then
            some true
          else if Version.lt extension_1.version extension_2.version then
            some false
          else
            none }

/-- `ExtensionDiff::is_update`. -/
def ExtensionDiff.is_update (d : ExtensionDiff) : Bool :=
  d.same_display_name && d.higher_version == some true

/-- `ExtensionDiff::is_downgrade`. -/
def ExtensionDiff.is_downgrade (d : ExtensionDiff) : Bool :=
  d.same_display_name && d.higher_version == some false

/-- `ExtensionDiff::is_name_change`. -/
def ExtensionDiff.is_name_change (d : ExtensionDiff) : Bool :=
  !d.same_display_name

/-- The spec's tri-state version order, `version_order` of the Diff. -/
inductive VersionOrder where
  | StagedHigher
  | StagedLower
  | Equal
deriving DecidableEq, Repr

/-- Reading of `higher_version` as the spec's tri-state, fixed by the
computation in `ExtensionDiff::new`: at the call site the first argument is
the loaded metadata, so `some true` (first argument strictly higher) means
the staged version is lower, `some false` means it is higher, and `none`
means the versions are equal. -/
def ExtensionDiff.version_order (d : ExtensionDiff) : VersionOrder :=
  match d.higher_version with
  | none => VersionOrder.Equal
  | some true => VersionOrder.StagedLower
  | some false => VersionOrder.StagedHigher

/-- The conflict record built by `LoadConflict::new` once a loaded extension
with the staged extension's ID has been found and diffed: `name_change` is
recorded iff the diff reports a name change, `version_change` iff the diff
reports an update or a downgrade. -/
def conflict_for (loaded_extension_metadata staged_extension_metadata : Metadata)
    (diff : ExtensionDiff) : LoadConflict :=
  { id := loaded_extension_metadata.id
    name_change :=
      if diff.is_name_change then
        some
          { loaded_name := loaded_extension_metadata.display_name
            staged_name := staged_extension_metadata.display_name }
      else
        none
    version_change :=
      if diff.is_update || diff.is_downgrade then
        some
          { loaded_version := loaded_extension_metadata.version
            staged_version := staged_extension_metadata.version }
      else
        none }

/-- `LoadConflict::new(staged_extension, &mut loaded_extensions)`: scans the
loaded metadata in order; the first entry sharing the staged extension's ID is
diffed, turned into a conflict, and removed from the list.  The Rust `&mut`
argument becomes explicit state passing: the updated list is returned next to
the optional conflict. -/
def LoadConflict.new (staged_extension : InventoryExtension) :
    List Metadata → Option LoadConflict × List Metadata
  | [] => (none, [])
  | loaded_extension_metadata :: rest =>
    match ExtensionDiff.new loaded_extension_metadata staged_extension.metadata with
    | none =>
      let result := LoadConflict.new staged_extension rest
      (result.1, loaded_extension_metadata :: result.2)
    | some diff =>
      (some (conflict_for loaded_extension_metadata staged_extension.metadata diff), rest)

/-- `LoadConflict::should_reload`: true iff a version change is present with
the loaded version strictly below the staged version. -/
def LoadConflict.should_reload (conflict : LoadConflict) : Bool :=
  match conflict.version_change with
  | some version_change =>
    decide (Version.lt version_change.loaded_version version_change.staged_version)
  | none => false

/-- `ExtensionManager::already_contains`: whether an extension shares an ID
with any already-staged extension.  The manager state is its
`staged_extensions` list. -/
def already_contains (staged_extensions : List InventoryExtension)
    (extension : InventoryExtension) : Bool :=
  match staged_extensions with
  | [] => false
  | staged_extension :: rest =>
    if staged_extension.metadata.id = extension.metadata.id then
      true
    else
      already_contains rest extension

/-- Observable outcome of one `ExtensionManager::stage_extension` call, past
the file-reading and TOML-parsing steps (external collaborators): the new
staged list, whether the duplicate-ID error message was logged, and the
function's return value (`Ok(())` on this path — I/O and parse errors are the
only error returns in the source). -/
structure StageOutcome where
  staged_extensions : List InventoryExtension
  dup_error_logged : Bool
  result : Except String Unit
deriving Repr

/-- `ExtensionManager::stage_extension` after parsing: pushes the extension
unless its ID is already staged, in which case it logs an error and leaves the
staged list unchanged; either way it returns `Ok(())`. -/
def stage_extension (staged_extensions : List InventoryExtension)
    (extension : InventoryExtension) : StageOutcome :=
  if !already_contains staged_extensions extension then
    { staged_extensions := staged_extensions ++ [extension]
      dup_error_logged := false
      result := Except.ok () }
  else
    { staged_extensions := staged_extensions
      dup_error_logged := true
      result := Except.ok () }

/-- The staging loop of `ExtensionManager::new`: stages each candidate in
order, starting from the empty manager. -/
def stage_all (candidates : List InventoryExtension) : List InventoryExtension :=
  candidates.foldl (fun acc extension => (stage_extension acc extension).staged_extensions) []

/-- One storage-collaborator effect issued by the orchestrator. -/
inductive StorageEvent where
  | load (metadata : Metadata)
  | reload (metadata : Metadata)
deriving DecidableEq, Repr

/-- The loop body of `ExtensionManager::load_extensions`, with the storage
collaborator supplied as two oracle functions (`db.load_extension`,
`db.reload_extension`) and the working loaded collection threaded explicitly.
Returns the trace of storage calls issued, the final working loaded
collection, and the function's result (the conflict report, or the first
storage error, which aborts the loop via `?`).  Note the reload condition is
the source's `load_override || conflict.should_reload()`, and the conflict is
pushed onto the report only after a successful reload. -/
def load_loop {ε : Type} (load_ext reload_ext : InventoryExtension → Except ε Unit)
    (load_override : Bool) :
    List InventoryExtension → List Metadata →
      List StorageEvent × List Metadata × Except ε (List LoadConflict)
  | [], loaded_extensions => ([], loaded_extensions, Except.ok [])
  | staged_extension :: rest, loaded_extensions =>
    match LoadConflict.new staged_extension loaded_extensions with
    | (none, loaded_after) =>
      match load_ext staged_extension with
      | Except.error e =>
        ([StorageEvent.load staged_extension.metadata], loaded_after, Except.error e)
      | Except.ok _ =>
        let next := load_loop load_ext reload_ext load_override rest loaded_after
        (StorageEvent.load staged_extension.metadata :: next.1, next.2.1, next.2.2)
    | (some conflict, loaded_after) =>
      if load_override || conflict.should_reload then
        match reload_ext staged_extension with
        | Except.error e =>
          ([StorageEvent.reload staged_extension.metadata], loaded_after, Except.error e)
        | Except.ok _ =>
          let next := load_loop load_ext reload_ext load_override rest loaded_after
          (StorageEvent.reload staged_extension.metadata :: next.1, next.2.1,
            match next.2.2 with
            | Except.ok conflicts => Except.ok (conflict :: conflicts)
            | Except.error e => Except.error e)
      else
        let next := load_loop load_ext reload_ext load_override rest loaded_after
        (next.1, next.2.1,
          match next.2.2 with
          | Except.ok conflicts => Except.ok (conflict :: conflicts)
          | Except.error e => Except.error e)

/-- `ExtensionManager::load_extensions`: the externally visible part of the
reconciliation pass — the storage calls issued and the returned
`Result<Vec<LoadConflict>>`. -/
def load_extensions {ε : Type} (load_ext reload_ext : InventoryExtension → Except ε Unit)
    (load_override : Bool) (staged_extensions : List InventoryExtension)
    (loaded_extensions : List Metadata) :
    List StorageEvent × Except ε (List LoadConflict) :=
  let out := load_loop load_ext reload_ext load_override staged_extensions loaded_extensions
  (out.1, out.2.2)

/-- The conflicts encountered during a pass, in staged order, one per
conflicting staged entity, independent of the override flag and of the
reload/skip decisions.  Used to state what the report returned by a
fully-successful pass contains. -/
def conflicts_of :
    List InventoryExtension → List Metadata → List LoadConflict
  | [], _ => []
  | staged_extension :: rest, loaded_extensions =>
    match LoadConflict.new staged_extension loaded_extensions with
    | (none, loaded_after) => conflicts_of rest loaded_after
    | (some conflict, loaded_after) => conflict :: conflicts_of rest loaded_after

/-- Concrete metadata used by witnesses: id `a`, name `Foo`, version 1.0.0. -/
def foo100 : Metadata :=
  { id := { name := "a" }, display_name := "Foo", version := { major := 1, minor := 0, patch := 0 } }

/-- Concrete metadata used by witnesses: id `a`, name `Foo`, version 2.0.0. -/
def foo200 : Metadata :=
  { id := { name := "a" }, display_name := "Foo", version := { major := 2, minor := 0, patch := 0 } }

/-- Concrete metadata used by witnesses: id `a`, name `Bar`, version 1.0.0. -/
def bar100 : Metadata :=
  { id := { name := "a" }, display_name := "Bar", version := { major := 1, minor := 0, patch := 0 } }

/-- Concrete metadata used by witnesses: id `b`, name `Baz`, version 1.0.0. -/
def baz100 : Metadata :=
  { id := { name := "b" }, display_name := "Baz", version := { major := 1, minor := 0, patch := 0 } }

/-- Concrete staged extension with metadata `foo100`. -/
def ext_foo100 : InventoryExtension := { metadata := foo100 }

/-- Concrete staged extension with metadata `foo200`. -/
def ext_foo200 : InventoryExtension := { metadata := foo200 }

/-- Concrete staged extension with metadata `bar100`. -/
def ext_bar100 : InventoryExtension := { metadata := bar100 }

/-- Concrete staged extension with metadata `baz100`. -/
def ext_baz100 : InventoryExtension := { metadata := baz100 }

/-- Always-succeeding `load_extension` oracle, for witnesses. -/
def ok_load : InventoryExtension → Except String Unit := fun _ => Except.ok ()

/-- Always-succeeding `reload_extension` oracle, for witnesses. -/
def ok_reload : InventoryExtension → Except String Unit := fun _ => Except.ok ()

/-- `load_extension` oracle that fails (only) on extensions with id `b`,
for the fail-fast witness. -/
def failing_load : InventoryExtension → Except String Unit := fun extension =>
  if extension.metadata.id = { name := "b" } then Except.error "db down" else Except.ok ()

theorem Version.lt_irrefl (a : Version) : ¬ Version.lt a a := by
  unfold Version.lt
  omega

theorem Version.lt_asymm {a b : Version} (h : Version.lt a b) :
    ¬ Version.lt b a := by
  unfold Version.lt at h ⊢
  omega

theorem Version.eq_of_not_lt {a b : Version}
    (h1 : ¬ Version.lt a b) (h2 : ¬ Version.lt b a) : a = b := by
  obtain ⟨a1, a2, a3⟩ := a
  obtain ⟨b1, b2, b3⟩ := b
  simp only [Version.lt] at h1 h2
  simp only [Version.mk.injEq]
  omega

theorem Version.ne_of_lt {a b : Version} (h : Version.lt a b) : a ≠ b := by
  rintro rfl
  exact Version.lt_irrefl a h

/-- Claim C5: `ExtensionDiff::new` returns `none` exactly when the two
identities differ; whenever the identities are equal it returns a defined
diff. -/
theorem diff_none_iff_id_ne (extension_1 extension_2 : Metadata) :
    ExtensionDiff.new extension_1 extension_2 = none ↔
      extension_1.id ≠ extension_2.id := by
  unfold ExtensionDiff.new
  split_ifs with h
  · simp [h]
  · simp [h]

/-- Claim C2: for metadata pairs with equal identities, the diff's version
order (the tri-state reading of `higher_version`) is `Equal` iff the versions
are equal, `StagedHigher` iff the staged version is strictly greater than the
loaded one, and `StagedLower` iff it is strictly smaller. -/
theorem diff_version_order_spec (loaded staged : Metadata)
    (h : loaded.id = staged.id) :
    ∃ d, ExtensionDiff.new loaded staged = some d ∧
      (d.version_order = VersionOrder.Equal ↔ staged.version = loaded.version) ∧
      (d.version_order = VersionOrder.StagedHigher ↔
        Version.lt loaded.version staged.version) ∧
      (d.version_order = VersionOrder.StagedLower ↔
        Version.lt staged.version loaded.version) := by
  unfold ExtensionDiff.new
  rw [if_neg (by simp [h])]
  refine ⟨_, rfl, ?_⟩
  by_cases h1 : Version.lt staged.version loaded.version
  · rw [if_pos h1]
    simp only [ExtensionDiff.version_order]
    refine ⟨?_, ?_, ?_⟩
    · simp only [iff_false_intro (Version.ne_of_lt h1)]
      simp
    · simp only [iff_false_intro (Version.lt_asymm h1)]
      simp
    · simp [h1]
  · rw [if_neg h1]
    by_cases h2 : Version.lt loaded.version staged.version
    · rw [if_pos h2]
      simp only [ExtensionDiff.version_order]
      refine ⟨?_, ?_, ?_⟩
      · simp only [iff_false_intro (Ne.symm (Version.ne_of_lt h2))]
        simp
      · simp [h2]
      · simp only [iff_false_intro (Version.lt_asymm h2)]
        simp
    · rw [if_neg h2]
      simp only [ExtensionDiff.version_order]
      refine ⟨?_, ?_, ?_⟩
      · simp [Version.eq_of_not_lt h1 h2]
      · simp [h2]
      · simp [h1]

/-- Witness for C2: the theorem applied to the concrete pair
`foo100`/`foo200` (equal ids, staged strictly higher). -/
theorem diff_version_order_spec_witness :
    ∃ d, ExtensionDiff.new foo100 foo200 = some d ∧
      (d.version_order = VersionOrder.Equal ↔ foo200.version = foo100.version) ∧
      (d.version_order = VersionOrder.StagedHigher ↔
        Version.lt foo100.version foo200.version) ∧
      (d.version_order = VersionOrder.StagedLower ↔
        Version.lt foo200.version foo100.version) :=
  diff_version_order_spec foo100 foo200 rfl

theorem LoadConflict.new_fst_none (staged_extension : InventoryExtension) :
    ∀ loaded : List Metadata,
      (LoadConflict.new staged_extension loaded).1 = none →
        (LoadConflict.new staged_extension loaded).2 = loaded := by
  intro loaded
  induction loaded with
  | nil => intro _; rfl
  | cons m rest ih =>
    intro h
    unfold LoadConflict.new at h ⊢
    cases hd : ExtensionDiff.new m staged_extension.metadata with
    | none =>
      rw [hd] at h
      dsimp only at h ⊢
      rw [ih h]
    | some diff =>
      rw [hd] at h
      dsimp only at h
      cases h

theorem LoadConflict.new_fst_some (staged_extension : InventoryExtension) :
    ∀ (loaded : List Metadata) (c : LoadConflict),
      (LoadConflict.new staged_extension loaded).1 = some c →
        ∃ pre m post diff,
          loaded = pre ++ m :: post ∧
          (∀ x ∈ pre, x.id ≠ staged_extension.metadata.id) ∧
          ExtensionDiff.new m staged_extension.metadata = some diff ∧
          c = conflict_for m staged_extension.metadata diff ∧
          (LoadConflict.new staged_extension loaded).2 = pre ++ post := by
  intro loaded
  induction loaded with
  | nil => intro c h; simp [LoadConflict.new] at h
  | cons m rest ih =>
    intro c h
    unfold LoadConflict.new at h ⊢
    cases hd : ExtensionDiff.new m staged_extension.metadata with
    | none =>
      rw [hd] at h
      dsimp only at h ⊢
      obtain ⟨pre, m', post, diff, hsplit, hpre, hdiff, hc, hrest⟩ := ih c h
      refine ⟨m :: pre, m', post, diff, by rw [hsplit]; rfl, ?_, hdiff, hc, ?_⟩
      · intro x hx
        rcases List.mem_cons.mp hx with hx | hx
        · subst hx
          exact (diff_none_iff_id_ne x staged_extension.metadata).mp hd
        · exact hpre x hx
      · rw [hrest, List.cons_append]
    | some diff =>
      rw [hd] at h
      dsimp only at h ⊢
      rw [Option.some.injEq] at h
      exact ⟨[], m, rest, diff, rfl, by simp, hd, h.symm, rfl⟩

theorem conflict_for_fields (m t : Metadata) (diff : ExtensionDiff)
    (h : ExtensionDiff.new m t = some diff) :
    ((conflict_for m t diff).name_change.isSome ↔ m.display_name ≠ t.display_name) ∧
    ((conflict_for m t diff).version_change.isSome ↔
      (m.display_name = t.display_name ∧ m.version ≠ t.version)) := by
  unfold ExtensionDiff.new at h
  by_cases hid : m.id = t.id
  · rw [if_neg (by simp [hid])] at h
    simp only [Option.some.injEq] at h
    subst h
    constructor
    · by_cases hname : m.display_name = t.display_name
      · simp [conflict_for, ExtensionDiff.is_name_change, hname]
      · simp [conflict_for, ExtensionDiff.is_name_change, hname]
    · by_cases hname : m.display_name = t.display_name
      · by_cases h1 : Version.lt t.version m.version
        · simp [conflict_for, ExtensionDiff.is_update, ExtensionDiff.is_downgrade,
            hname, h1, Ne.symm (Version.ne_of_lt h1)]
        · by_cases h2 : Version.lt m.version t.version
          · simp [conflict_for, ExtensionDiff.is_update, ExtensionDiff.is_downgrade,
              hname, h1, h2, Version.ne_of_lt h2]
          · simp [conflict_for, ExtensionDiff.is_update, ExtensionDiff.is_downgrade,
              hname, h1, h2, Version.eq_of_not_lt h2 h1, Version.lt_irrefl]
      · by_cases h1 : Version.lt t.version m.version
        · simp [conflict_for, ExtensionDiff.is_update, ExtensionDiff.is_downgrade,
            hname, h1]
        · by_cases h2 : Version.lt m.version t.version
          · simp [conflict_for, ExtensionDiff.is_update, ExtensionDiff.is_downgrade,
              hname, h1, h2]
          · simp [conflict_for, ExtensionDiff.is_update, ExtensionDiff.is_downgrade,
              hname, h1, h2]
  · rw [if_pos (by simp [hid])] at h
    cases h

/-- Claim C3: whenever the classifier matches a staged extension against a
loaded entry (same identity), the produced conflict records a name change
exactly when the display names differ, and a version change exactly when the
display names agree and the versions differ. -/
theorem conflict_fields_iff (staged_extension : InventoryExtension)
    (loaded : List Metadata) (c : LoadConflict)
    (h : (LoadConflict.new staged_extension loaded).1 = some c) :
    ∃ m ∈ loaded, m.id = staged_extension.metadata.id ∧
      (c.name_change.isSome ↔
        m.display_name ≠ staged_extension.metadata.display_name) ∧
      (c.version_change.isSome ↔
        (m.display_name = staged_extension.metadata.display_name ∧
          m.version ≠ staged_extension.metadata.version)) := by
  obtain ⟨pre, m, post, diff, hsplit, _, hdiff, hc, _⟩ :=
    LoadConflict.new_fst_some staged_extension loaded c h
  have hid : m.id = staged_extension.metadata.id := by
    by_contra hne
    rw [(diff_none_iff_id_ne m staged_extension.metadata).mpr hne] at hdiff
    cases hdiff
  obtain ⟨hname, hversion⟩ := conflict_for_fields m staged_extension.metadata diff hdiff
  subst hc
  exact ⟨m, by rw [hsplit]; exact List.mem_append_right pre (List.mem_cons_self m post),
    hid, hname, hversion⟩

/-- Witness for C3: the theorem applied to staged `bar100` against loaded
`[foo100]` (same id, name changed, version equal). -/
theorem conflict_fields_iff_witness :
    ∃ m ∈ [foo100], m.id = ext_bar100.metadata.id ∧
      ((LoadConflict.mk foo100.id
          (some { loaded_name := "Foo", staged_name := "Bar" }) none).name_change.isSome ↔
        m.display_name ≠ ext_bar100.metadata.display_name) ∧
      ((LoadConflict.mk foo100.id
          (some { loaded_name := "Foo", staged_name := "Bar" }) none).version_change.isSome ↔
        (m.display_name = ext_bar100.metadata.display_name ∧
          m.version ≠ ext_bar100.metadata.version)) :=
  conflict_fields_iff ext_bar100 [foo100]
    (LoadConflict.mk foo100.id (some { loaded_name := "Foo", staged_name := "Bar" }) none)
    (by decide)

/-- Claim C7: one classifier call removes at most one entry from the working
loaded collection (none when no conflict is found), and the matched entry is
removed from the returned collection, so later calls in the same pass cannot
rematch it. -/
theorem classifier_removes_at_most_one (staged_extension : InventoryExtension)
    (loaded : List Metadata) :
    List.Sublist (LoadConflict.new staged_extension loaded).2 loaded ∧
    loaded.length ≤ (LoadConflict.new staged_extension loaded).2.length + 1 ∧
    ((LoadConflict.new staged_extension loaded).1 = none →
      (LoadConflict.new staged_extension loaded).2 = loaded) ∧
    (∀ c, (LoadConflict.new staged_extension loaded).1 = some c →
      ∃ pre m post, loaded = pre ++ m :: post ∧
        m.id = staged_extension.metadata.id ∧
        (LoadConflict.new staged_extension loaded).2 = pre ++ post) := by
  cases hfst : (LoadConflict.new staged_extension loaded).1 with
  | none =>
    have heq := LoadConflict.new_fst_none staged_extension loaded hfst
    rw [heq]
    exact ⟨List.Sublist.refl loaded, Nat.le_succ loaded.length,
      fun _ => rfl, fun c hc => by cases hc⟩
  | some c =>
    obtain ⟨pre, m, post, diff, hsplit, _, hdiff, _, hrest⟩ :=
      LoadConflict.new_fst_some staged_extension loaded c hfst
    have hid : m.id = staged_extension.metadata.id := by
      by_contra hne
      rw [(diff_none_iff_id_ne m staged_extension.metadata).mpr hne] at hdiff
      cases hdiff
    refine ⟨?_, ?_, ?_, ?_⟩
    · rw [hrest, hsplit]
      exact List.Sublist.append_left (List.sublist_cons_self m post) pre
    · rw [hrest, hsplit]
      simp [List.length_append]
      omega
    · intro hnone
      cases hnone
    · intro c' hc'
      cases Option.some.inj hc'
      exact ⟨pre, m, post, hsplit, hid, hrest⟩

/-- Witness for C7: the theorem applied to staged `foo200` against loaded
`[baz100, foo100]`; the matched `foo100` is removed. -/
theorem classifier_removes_at_most_one_witness :
    ∃ pre m post, [baz100, foo100] = pre ++ m :: post ∧
      m.id = ext_foo200.metadata.id ∧
      (LoadConflict.new ext_foo200 [baz100, foo100]).2 = pre ++ post :=
  (classifier_removes_at_most_one ext_foo200 [baz100, foo100]).2.2.2
    (LoadConflict.mk foo100.id none
      (some { loaded_version := foo100.version, staged_version := foo200.version }))
    (by decide)

/-- Claim C4: `should_reload` is true exactly when a version change is
present whose staged version is strictly greater than its loaded version. -/
theorem should_reload_iff (conflict : LoadConflict) :
    conflict.should_reload = true ↔
      ∃ version_change, conflict.version_change = some version_change ∧
        Version.lt version_change.loaded_version version_change.staged_version := by
  cases h : conflict.version_change with
  | none => simp [LoadConflict.should_reload, h]
  | some version_change => simp [LoadConflict.should_reload, h]

theorem already_contains_iff (staged_extensions : List InventoryExtension)
    (extension : InventoryExtension) :
    already_contains staged_extensions extension = true ↔
      ∃ staged ∈ staged_extensions,
        staged.metadata.id = extension.metadata.id := by
  induction staged_extensions with
  | nil => simp [already_contains]
  | cons staged rest ih =>
    by_cases hs : staged.metadata.id = extension.metadata.id
    · simp [already_contains, hs]
    · simp [already_contains, hs, ih]

/-- Counterexample for C6 as stated: staging an extension whose identity is
already staged does NOT return an error — the call returns `Ok(())` (the
duplicate is only logged), while leaving the staged set unchanged. -/
theorem stage_duplicate_returns_ok :
    (stage_extension [ext_foo100] ext_foo100).result = Except.ok () ∧
    (stage_extension [ext_foo100] ext_foo100).staged_extensions = [ext_foo100] := by
  decide

/-- Claim C6 (amended): staging an entity whose identity already exists in
the staging set does not insert it and leaves the staging set unchanged; the
duplicate condition is reported through the error log while the call itself
returns success. -/
theorem stage_duplicate_rejected (staged_extensions : List InventoryExtension)
    (extension : InventoryExtension)
    (h : ∃ staged ∈ staged_extensions,
      staged.metadata.id = extension.metadata.id) :
    (stage_extension staged_extensions extension).staged_extensions = staged_extensions ∧
    (stage_extension staged_extensions extension).dup_error_logged = true ∧
    (stage_extension staged_extensions extension).result = Except.ok () := by
  have hc : already_contains staged_extensions extension = true :=
    (already_contains_iff staged_extensions extension).mpr h
  simp [stage_extension, hc]

/-- Witness for the amended C6: staging `bar100` (same id as the staged
`foo100`) is rejected with the set unchanged. -/
theorem stage_duplicate_rejected_witness :
    (stage_extension [ext_foo100] ext_bar100).staged_extensions = [ext_foo100] ∧
    (stage_extension [ext_foo100] ext_bar100).dup_error_logged = true ∧
    (stage_extension [ext_foo100] ext_bar100).result = Except.ok () :=
  stage_duplicate_rejected [ext_foo100] ext_bar100
    ⟨ext_foo100, by decide, by decide⟩

/-- Claim C1 (evidence of the code bug): the orchestrator reloads whenever
`load_override || conflict.should_reload()` holds, not only when the override
is enabled AND a strict upgrade is staged.  First conjunct: with
override = true and a conflict whose `version_change` is `none` (identical
metadata), a reload storage call is issued even though the four-branch policy
(and the code's own log message for this case) says Skip.  Second conjunct:
with override = false and a staged strict upgrade, a reload is issued even
though rule 2 of the policy (and the code's own log message) says Skip. -/
theorem override_or_upgrade_reloads :
    (load_extensions ok_load ok_reload true [ext_foo100] [foo100] =
      ([StorageEvent.reload foo100],
        Except.ok [{ id := foo100.id, name_change := none, version_change := none }])) ∧
    (load_extensions ok_load ok_reload false [ext_foo200] [foo100] =
      ([StorageEvent.reload foo200],
        Except.ok
          [{ id := foo100.id, name_change := none,
             version_change :=
               some { loaded_version := foo100.version,
                      staged_version := foo200.version } }])) := by
  exact ⟨by decide, by decide⟩

theorem stage_extension_staged (acc : List InventoryExtension)
    (extension : InventoryExtension) :
    (stage_extension acc extension).staged_extensions =
      if already_contains acc extension then acc else acc ++ [extension] := by
  unfold stage_extension
  by_cases h : already_contains acc extension <;> simp [h]

theorem stage_not_inserted_later (candidates : List InventoryExtension) :
    ∀ (acc : List InventoryExtension) (f : InventoryExtension),
      f ∈ candidates.foldl
        (fun acc extension => (stage_extension acc extension).staged_extensions) acc →
      (∃ y ∈ acc, y.metadata.id = f.metadata.id) → f ∈ acc := by
  induction candidates with
  | nil =>
    intro acc f hf _
    simpa using hf
  | cons e rest ih =>
    intro acc f hf hy
    rw [List.foldl_cons] at hf
    have hy' : ∃ y ∈ (stage_extension acc e).staged_extensions,
        y.metadata.id = f.metadata.id := by
      obtain ⟨y, hyin, hyid⟩ := hy
      refine ⟨y, ?_, hyid⟩
      rw [stage_extension_staged]
      split
      · exact hyin
      · exact List.mem_append_left _ hyin
    have hf' : f ∈ (stage_extension acc e).staged_extensions := ih _ f hf hy'
    rw [stage_extension_staged] at hf'
    by_cases hc : already_contains acc e = true
    · rw [if_pos hc] at hf'
      exact hf'
    · rw [if_neg hc] at hf'
      rcases List.mem_append.mp hf' with h | h
      · exact h
      · have hfe : f = e := by simpa using h
        subst hfe
        exact absurd ((already_contains_iff acc f).mpr hy) hc

theorem stage_all_ids_nodup (candidates : List InventoryExtension) :
    ∀ acc : List InventoryExtension,
      ((acc.map fun e => e.metadata.id).Nodup) →
      (((candidates.foldl
          (fun acc extension => (stage_extension acc extension).staged_extensions)
          acc).map fun e => e.metadata.id).Nodup) := by
  induction candidates with
  | nil =>
    intro acc hacc
    simpa using hacc
  | cons e rest ih =>
    intro acc hacc
    rw [List.foldl_cons]
    apply ih
    rw [stage_extension_staged]
    by_cases hc : already_contains acc e = true
    · rw [if_pos hc]
      exact hacc
    · rw [if_neg hc]
      rw [List.map_append, List.nodup_append]
      refine ⟨hacc, by simp, ?_⟩
      intro i hi hi'
      simp only [List.map_cons, List.map_nil, List.mem_singleton] at hi'
      subst hi'
      obtain ⟨y, hyin, hyid⟩ := List.mem_map.mp hi
      exact hc ((already_contains_iff acc e).mpr ⟨y, hyin, hyid⟩)

theorem stage_first_wins (candidates : List InventoryExtension) :
    ∀ (acc : List InventoryExtension) (f : InventoryExtension),
      f ∈ candidates.foldl
        (fun acc extension => (stage_extension acc extension).staged_extensions) acc →
      f ∈ acc ∨
        candidates.find? (fun x => decide (x.metadata.id = f.metadata.id)) = some f := by
  induction candidates with
  | nil =>
    intro acc f hf
    left
    simpa using hf
  | cons e rest ih =>
    intro acc f hf
    rw [List.foldl_cons] at hf
    by_cases hpe : e.metadata.id = f.metadata.id
    · by_cases hc : already_contains acc e = true
      · have hy : ∃ y ∈ acc, y.metadata.id = f.metadata.id := by
          obtain ⟨y, hyin, hyid⟩ := (already_contains_iff acc e).mp hc
          exact ⟨y, hyin, hyid.trans hpe⟩
        left
        have hstep : (stage_extension acc e).staged_extensions = acc := by
          rw [stage_extension_staged, if_pos hc]
        have hf' : f ∈ (stage_extension acc e).staged_extensions :=
          stage_not_inserted_later rest _ f hf (by rw [hstep]; exact hy)
        rw [hstep] at hf'
        exact hf'
      · have hstep : (stage_extension acc e).staged_extensions = acc ++ [e] := by
          rw [stage_extension_staged, if_neg hc]
        have hf' : f ∈ (stage_extension acc e).staged_extensions :=
          stage_not_inserted_later rest _ f hf
            (by rw [hstep]; exact ⟨e, List.mem_append_right _ (List.mem_singleton_self e), hpe⟩)
        rw [hstep] at hf'
        rcases List.mem_append.mp hf' with h | h
        · left
          exact h
        · have hfe : f = e := by simpa using h
          subst hfe
          right
          exact List.find?_cons_of_pos _ (by simp)
    · rcases ih _ f hf with hin | hfind
      · rw [stage_extension_staged] at hin
        by_cases hc : already_contains acc e = true
        · rw [if_pos hc] at hin
          left
          exact hin
        · rw [if_neg hc] at hin
          rcases List.mem_append.mp hin with h | h
          · left
            exact h
          · have hfe : f = e := by simpa using h
            subst hfe
            exact absurd rfl hpe
      · right
        rw [List.find?_cons_of_neg _ (by simp [hpe])]
        exact hfind

/-- Claim C8: across any sequence of staging attempts the identities in the
staging set stay pairwise distinct, and every retained entry is the
first-staged candidate bearing its identity — a later candidate with a
duplicated identity is dropped, not merged. -/
theorem staging_set_unique_first_wins (candidates : List InventoryExtension) :
    ((stage_all candidates).map fun e => e.metadata.id).Nodup ∧
    ∀ f ∈ stage_all candidates,
      candidates.find? (fun x => decide (x.metadata.id = f.metadata.id)) = some f := by
  constructor
  · exact stage_all_ids_nodup candidates [] (by simp)
  · intro f hf
    rcases stage_first_wins candidates [] f hf with h | h
    · simp at h
    · exact h

/-- Witness for C8: of the two same-identity candidates `foo100`, `foo200`,
the final staged set retains `foo100`, the first one staged. -/
theorem staging_set_unique_first_wins_witness :
    [ext_foo100, ext_foo200].find?
        (fun x => decide (x.metadata.id = ext_foo100.metadata.id)) = some ext_foo100 :=
  (staging_set_unique_first_wins [ext_foo100, ext_foo200]).2 ext_foo100 (by decide)

theorem load_loop_all_ok {ε : Type} (load_override : Bool) :
    ∀ (staged : List InventoryExtension) (loaded : List Metadata),
      (load_loop (fun _ => (Except.ok () : Except ε Unit)) (fun _ => Except.ok ())
          load_override staged loaded).2.2 =
        Except.ok (conflicts_of staged loaded) := by
  intro staged
  induction staged with
  | nil => intro loaded; rfl
  | cons staged_extension rest ih =>
    intro loaded
    unfold load_loop conflicts_of
    cases hnew : LoadConflict.new staged_extension loaded with
    | mk copt loaded_after =>
      cases copt with
      | none =>
        dsimp only
        exact ih loaded_after
      | some conflict =>
        dsimp only
        split
        · simp [ih loaded_after]
        · simp [ih loaded_after]

/-- Claim C9: when no storage call fails, the pass returns exactly the
conflicts encountered, one per conflicting staged entity, in staged order,
appended unconditionally — the report does not depend on the override flag or
on the reload/skip decisions. -/
theorem report_is_all_conflicts {ε : Type} (load_override : Bool)
    (staged : List InventoryExtension) (loaded : List Metadata) :
    (load_extensions (fun _ => (Except.ok () : Except ε Unit)) (fun _ => Except.ok ())
        load_override staged loaded).2 =
      Except.ok (conflicts_of staged loaded) := by
  unfold load_extensions
  exact load_loop_all_ok load_override staged loaded

theorem load_loop_fail_fast {ε : Type}
    (load_ext reload_ext : InventoryExtension → Except ε Unit) (load_override : Bool)
    (s : InventoryExtension) (post : List InventoryExtension)
    (t2 : List StorageEvent) (l2 : List Metadata) (e : ε) :
    ∀ (pre : List InventoryExtension) (loaded : List Metadata)
      (t1 : List StorageEvent) (l1 : List Metadata) (cs1 : List LoadConflict),
      load_loop load_ext reload_ext load_override pre loaded = (t1, l1, Except.ok cs1) →
      load_loop load_ext reload_ext load_override [s] l1 = (t2, l2, Except.error e) →
      load_loop load_ext reload_ext load_override (pre ++ s :: post) loaded =
        (t1 ++ t2, l2, Except.error e) := by
  intro pre
  induction pre with
  | nil =>
    intro loaded t1 l1 cs1 h1 h2
    unfold load_loop at h1
    simp only [Prod.mk.injEq] at h1
    obtain ⟨rfl, rfl, _⟩ := h1
    simp only [List.nil_append]
    unfold load_loop at h2 ⊢
    cases hnew : LoadConflict.new s loaded with
    | mk copt la =>
      rw [hnew] at h2
      cases copt with
      | none =>
        dsimp only at h2 ⊢
        cases hload : load_ext s with
        | error e2 =>
          rw [hload] at h2
          dsimp only at h2
          simp only [Prod.mk.injEq, Except.error.injEq] at h2
          obtain ⟨rfl, rfl, rfl⟩ := h2
          rfl
        | ok u =>
          rw [hload] at h2
          dsimp only at h2
          simp [load_loop] at h2
      | some c =>
        dsimp only at h2 ⊢
        by_cases hcond : (load_override || c.should_reload) = true
        · rw [if_pos hcond] at h2 ⊢
          cases hrel : reload_ext s with
          | error e2 =>
            rw [hrel] at h2
            dsimp only at h2
            simp only [Prod.mk.injEq, Except.error.injEq] at h2
            obtain ⟨rfl, rfl, rfl⟩ := h2
            rfl
          | ok u =>
            rw [hrel] at h2
            dsimp only at h2
            simp [load_loop] at h2
        · rw [if_neg hcond] at h2 ⊢
          simp [load_loop] at h2
  | cons p rest ih =>
    intro loaded t1 l1 cs1 h1 h2
    rw [List.cons_append]
    unfold load_loop at h1 ⊢
    cases hnew : LoadConflict.new p loaded with
    | mk copt la =>
      rw [hnew] at h1
      cases copt with
      | none =>
        dsimp only at h1 ⊢
        cases hload : load_ext p with
        | error e2 =>
          rw [hload] at h1
          dsimp only at h1
          simp at h1
        | ok u =>
          rw [hload] at h1
          dsimp only at h1
          rcases hni : load_loop load_ext reload_ext load_override rest la with ⟨nt, nl, nr⟩
          rw [hni] at h1
          simp only [Prod.mk.injEq] at h1
          obtain ⟨ht, hl, hc⟩ := h1
          subst ht
          rw [hl, hc] at hni
          have htail := ih la nt l1 cs1 hni h2
          rw [htail]
          simp
      | some c =>
        dsimp only at h1 ⊢
        by_cases hcond : (load_override || c.should_reload) = true
        · rw [if_pos hcond] at h1 ⊢
          cases hrel : reload_ext p with
          | error e2 =>
            rw [hrel] at h1
            dsimp only at h1
            simp at h1
          | ok u =>
            rw [hrel] at h1
            dsimp only at h1
            rcases hni : load_loop load_ext reload_ext load_override rest la with ⟨nt, nl, nr⟩
            rw [hni] at h1
            cases nr with
            | error e2 =>
              simp at h1
            | ok cs2 =>
              simp only [Prod.mk.injEq, Except.ok.injEq] at h1
              obtain ⟨ht, hl, _⟩ := h1
              subst ht
              rw [hl] at hni
              have htail := ih la nt l1 cs2 hni h2
              rw [htail]
              simp
        · rw [if_neg hcond] at h1 ⊢
          rcases hni : load_loop load_ext reload_ext load_override rest la with ⟨nt, nl, nr⟩
          rw [hni] at h1
          cases nr with
          | error e2 =>
            simp at h1
          | ok cs2 =>
            simp only [Prod.mk.injEq, Except.ok.injEq] at h1
            obtain ⟨ht, hl, _⟩ := h1
            subst ht
            rw [hl] at hni
            have htail := ih la nt l1 cs2 hni h2
            rw [htail]

/-- Claim C10: a storage failure aborts the pass immediately — the error is
returned as is, the staged entities after the failing one contribute nothing
(no storage calls of theirs appear in the trace), the conflicts gathered so
far are discarded (the result carries no report), and the effects already
committed (the trace before the failure) are kept, with no rollback
events. -/
theorem storage_failure_fails_fast {ε : Type}
    (load_ext reload_ext : InventoryExtension → Except ε Unit) (load_override : Bool)
    (pre : List InventoryExtension) (s : InventoryExtension)
    (post : List InventoryExtension) (loaded : List Metadata)
    (t1 : List StorageEvent) (l1 : List Metadata) (cs1 : List LoadConflict)
    (t2 : List StorageEvent) (l2 : List Metadata) (e : ε)
    (h1 : load_loop load_ext reload_ext load_override pre loaded =
      (t1, l1, Except.ok cs1))
    (h2 : load_loop load_ext reload_ext load_override [s] l1 =
      (t2, l2, Except.error e)) :
    load_extensions load_ext reload_ext load_override (pre ++ s :: post) loaded =
      (t1 ++ t2, Except.error e) := by
  unfold load_extensions
  rw [load_loop_fail_fast load_ext reload_ext load_override s post t2 l2 e
    pre loaded t1 l1 cs1 h1 h2]

/-- Witness for C10: `foo100` loads fine, loading `baz100` fails, and the
pending `foo200` behind it is never processed — the pass returns the storage
error with only the two storage calls in the trace. -/
theorem storage_failure_fails_fast_witness :
    load_extensions failing_load ok_reload false
        ([ext_foo100] ++ ext_baz100 :: [ext_foo200]) [] =
      ([StorageEvent.load foo100] ++ [StorageEvent.load baz100],
        Except.error "db down") :=
  storage_failure_fails_fast failing_load ok_reload false
    [ext_foo100] ext_baz100 [ext_foo200] []
    [StorageEvent.load foo100] [] [] [StorageEvent.load baz100] [] "db down"
    (by decide) (by decide)

end TechTriage
